import Mathlib

attribute [local semireducible] Rat.add Rat.mul Rat.sub Rat.inv

/-!
Verification development for the seisflows nonlinear-optimization driver
(`seisflows/optimize/base.py`).

The Python class `base` is a line-search state machine.  We give a shallow
embedding of its state and of the methods `compute_direction`,
`initialize_search`, `search_status`, `finalize_search` and of the helpers
`step_init`, `step_lens`, `func_vals`.  Machine floats are modelled by `ℚ`;
a possibly-NaN trial objective is modelled by `Option ℚ` with `none`
standing for NaN (the only NaN the driver inspects is `f_try`, via
`np.isnan`).  Model/gradient/direction vectors are `List ℚ`, and the numpy
expression `m + p*alpha` becomes an elementwise `zipWith`.
-/

/-- Search direction scheme, `PAR.SCHEME` (`SD`, `NLCG` or `LBFGS`). -/
inductive Scheme where
  | SD
  | NLCG
  | LBFGS
deriving DecidableEq, Repr

/-- Line search strategy, `PAR.LINESEARCH` (`Fixed`, `Bracket` or `Backtrack`). -/
inductive Strategy where
  | Fixed
  | Bracket
  | Backtrack
deriving DecidableEq, Repr

/-- The configuration parameters consulted by the methods we embed.
`stepthresh = none` models `PAR.STEPTHRESH = None`; `stepovershoot = 0`
models the falsy default `PAR.STEPOVERSHOOT = 0.`. -/
structure Config where
  scheme : Scheme
  linesearch : Strategy
  stepmax : Nat
  stepinit : ℚ
  stepfactor : ℚ
  stepthresh : Option ℚ
  stepovershoot : ℚ
deriving DecidableEq, Repr

/-- The per-line-search mutable attributes of the Python object:
`self.search_history`, `self.step_count`, `self.isdone`, `self.isbest`,
`self.isbrak`, together with `self.iter` and `self.restart`, which
`search_status` reads. -/
structure SearchState where
  searchHistory : List (ℚ × ℚ)
  stepCount : Nat
  isdone : Int
  isbest : Bool
  isbrak : Bool
  iter : Nat
  restart : Bool
deriving DecidableEq, Repr

/-- Elementwise `m + p*alpha` on numpy arrays of equal length. -/
def modelUpdate (m p : List ℚ) (alpha : ℚ) : List ℚ :=
  List.zipWith (fun mi pi => mi + pi * alpha) m p

/-- Models `max(abs(v))` for a nonempty numpy array (the driver only applies
it to the stored model and direction vectors, which are nonempty). -/
def maxAbs (v : List ℚ) : ℚ :=
  (v.map (fun a => |a|)).foldl max 0

/-- Comparison by absolute step length, the key of `abs(x).argsort()` used
in `step_lens`/`func_vals`. -/
def absLe (a b : ℚ × ℚ) : Prop :=
  |a.1| ≤ |b.1|

instance : DecidableRel absLe :=
  fun a b => inferInstanceAs (Decidable (|a.1| ≤ |b.1|))

instance : IsTotal (ℚ × ℚ) absLe :=
  ⟨fun a b => le_total _ _⟩

instance : IsTrans (ℚ × ℚ) absLe :=
  ⟨fun _ _ _ h₁ h₂ => le_trans h₁ h₂⟩

/-- The search history gathered along `abs(x).argsort()`: the same index
permutation is applied to the step array and the objective array in
`step_lens`/`func_vals`, so it amounts to sorting the (step, objective)
pairs by `|step|`.  `np.argsort` is modelled as a stable sort: for the
small arrays produced by a line search numpy dispatches to insertion sort,
which keeps equal keys in insertion order. -/
def sortedHistory (hist : List (ℚ × ℚ)) : List (ℚ × ℚ) :=
  List.insertionSort absLe hist

/-- Embedding of `base.step_lens`: step lengths, `|step|`-sorted when
`sort` is true, in chronological order otherwise. -/
def step_lens (hist : List (ℚ × ℚ)) (sort : Bool) : List ℚ :=
  if sort then (sortedHistory hist).map Prod.fst else hist.map Prod.fst

/-- Embedding of `base.func_vals`: objective values, ordered by `|step|`
when `sort` is true, in chronological order otherwise. -/
def func_vals (hist : List (ℚ × ℚ)) (sort : Bool) : List ℚ :=
  if sort then (sortedHistory hist).map Prod.snd else hist.map Prod.snd

/-- Models `any(f[1:] < f[0])`: some entry after the first is strictly
below the first.  (`f` is nonempty whenever the driver evaluates this.) -/
def anyImproved : List ℚ → Bool
  | [] => false
  | f0 :: rest => rest.any (fun v => decide (v < f0))

/-- Models `f[-2] < f[-1]` for a list with at least two entries (the
post-append history always has the baseline plus at least one trial). -/
def lastTwoLt (f : List ℚ) : Bool :=
  match f.dropLast.getLast?, f.getLast? with
  | some a, some b => decide (a < b)
  | _, _ => false

/-- Models `np.all(vals[-1] < vals[:-1])`: the last value is strictly
below every earlier one (true for the empty comparison). -/
def lastBeatsAll (vals : List ℚ) : Bool :=
  match vals.getLast? with
  | none => true
  | some last => vals.dropLast.all (fun v => decide (last < v))

/-- The successful path of `base.search_status`, i.e. everything after the
`np.isnan` guard: append `(alpha, f_try)` to the history, bump
`step_count`, update `isbest`, run the strategy dispatch on the sorted
objective values, then apply the `step_count >= PAR.STEPMAX` failure
override.  `x_` is the stored `alpha`, `f_` the trial objective. -/
def searchStatusCore (cfg : Config) (s : SearchState) (x_ f_ : ℚ) : SearchState :=
  let hist := s.searchHistory ++ [(x_, f_)]
  let stepCount := s.stepCount + 1
  let f := func_vals hist true
  let vals := func_vals hist false
  let isbest := if lastBeatsAll vals then true else s.isbest
  let db :=
    if cfg.linesearch = Strategy.Fixed then
      (if anyImproved f && lastTwoLt f then (1 : Int) else s.isdone, s.isbrak)
    else if cfg.linesearch = Strategy.Bracket ∨ s.iter = 1 ∨ s.restart = true then
      if s.isbrak then ((1 : Int), s.isbrak)
      else if anyImproved f && lastTwoLt f then (s.isdone, true)
      else (s.isdone, s.isbrak)
    else if cfg.linesearch = Strategy.Backtrack then
      (if anyImproved f then (1 : Int) else s.isdone, s.isbrak)
    else (s.isdone, s.isbrak)
  let isdone := if cfg.stepmax ≤ stepCount then (-1 : Int) else db.1
  { s with
      searchHistory := hist
      stepCount := stepCount
      isdone := isdone
      isbest := isbest
      isbrak := db.2 }

/-- Embedding of `base.search_status`.  A NaN `f_try` (modelled as `none`)
raises `ValueError` before any mutation, so the error value carries the
state exactly as it was; otherwise the successful path runs. -/
def search_status (cfg : Config) (s : SearchState) (x_ : ℚ) (fTry : Option ℚ) :
    Except SearchState SearchState :=
  match fTry with
  | none => Except.error s
  | some f_ => Except.ok (searchStatusCore cfg s x_ f_)

/-- A run of successive successful `search_status` calls: each trial is a
(step length, objective) pair read back from the store. -/
def runStatus (cfg : Config) (s : SearchState) (trials : List (ℚ × ℚ)) : SearchState :=
  trials.foldl (fun st t => searchStatusCore cfg st t.1 t.2) s

/-- Embedding of `base.step_init`: `2 * (s_new/s_old) * alpha` with the
previous trial step `alpha` read back from the store. -/
def step_init (alpha sNew sOld : ℚ) : ℚ :=
  2 * (sNew / sOld) * alpha

/-- What `base.initialize_search` produces: the reset line-search state,
the chosen initial step length `alpha`, and the trial model `m_try`. -/
structure InitResult where
  state : SearchState
  alpha : ℚ
  mTry : List ℚ
deriving DecidableEq, Repr

/-- Embedding of `base.initialize_search`.  Arguments are the values read
from the store: model `m`, direction `p`, objective `f`, the previous
iteration's step `alphaOld` (read by `step_init`) and the slopes
`sNew`, `sOld`.  The guards `if PAR.STEPOVERSHOOT:` and
`if PAR.STEPTHRESH:` follow Python truthiness (zero and `None` falsy). -/
def initialize_search (cfg : Config) (iter : Nat) (restart : Bool)
    (m p : List ℚ) (f alphaOld sNew sOld : ℚ) : InitResult :=
  let pr := maxAbs m / maxAbs p
  let st : SearchState :=
    { searchHistory := [(0, f)]
      stepCount := 0
      isdone := 0
      isbest := false
      isbrak := false
      iter := iter
      restart := restart }
  let alpha :=
    if iter = 1 then pr * cfg.stepinit
    else if restart = true then pr * cfg.stepinit
    else if cfg.linesearch = Strategy.Backtrack then 1
    else step_init alphaOld sNew sOld
  let alpha := if cfg.stepovershoot ≠ 0 then alpha * cfg.stepovershoot else alpha
  let alpha :=
    match cfg.stepthresh with
    | some t =>
        if t ≠ 0 then
          if alpha > pr * t ∧ 1 < iter then pr * t else alpha
        else alpha
    | none => alpha
  { state := st, alpha := alpha, mTry := modelUpdate m p alpha }

/-- Models `f.min()` on a nonempty numpy array (the driver only takes the
minimum of the history objectives, never of an empty array). -/
def npMin : List ℚ → ℚ
  | [] => 0
  | a :: rest => rest.foldl min a

/-- Models `np.argmin`: the index of the first occurrence of the minimum. -/
def npArgmin (l : List ℚ) : Nat :=
  l.indexOf (npMin l)

/-- What `base.finalize_search` commits: the accepted step `alpha`
(written to the store as `alpha`), the new objective `f_new` and the new
model `m_new`. -/
structure FinalizeResult where
  alphaStar : ℚ
  fNew : ℚ
  mNew : List ℚ
deriving DecidableEq, Repr

/-- Embedding of the committing part of `base.finalize_search`:
`alpha = x[f.argmin()]` over the sorted views, `m_new = m + p*alpha`,
`f_new = f.min()`.  (The surrounding file rotation and log output touch
no further numeric state.) -/
def finalize_search (hist : List (ℚ × ℚ)) (m p : List ℚ) : FinalizeResult :=
  let x := step_lens hist true
  let f := func_vals hist true
  let alpha := x.getD (npArgmin f) 0
  { alphaStar := alpha, fNew := npMin f, mNew := modelUpdate m p alpha }

/-- The attributes of the Python object touched by `compute_direction`:
`self.restart` and `self.restart_count`. -/
structure DirState where
  restart : Bool
  restartCount : Nat
deriving DecidableEq, Repr

/-- Embedding of the tail of `base.setup`: `self.restart = 0`,
`self.restart_count = 0`. -/
def setupOpt : DirState :=
  { restart := false, restartCount := 0 }

/-- Embedding of the restart bookkeeping of `base.compute_direction`.
For `NLCG`/`LBFGS` the configured Direction Algorithm returns a restart
flag (`report`), assigned to `self.restart`; the `SD` branch leaves
`self.restart` untouched.  Afterwards `restart_count` is incremented when
the flag is truthy. -/
def compute_direction (scheme : Scheme) (report : Bool) (s : DirState) : DirState :=
  let restart :=
    match scheme with
    | Scheme.SD => s.restart
    | Scheme.NLCG => report
    | Scheme.LBFGS => report
  { restart := restart
    restartCount := if restart then s.restartCount + 1 else s.restartCount }

/-- A whole-run sequence of `compute_direction` calls from the state left
by `setup`, with the Direction Algorithm's restart reports listed per call. -/
def runDirections (scheme : Scheme) (reports : List Bool) : DirState :=
  reports.foldl (fun s r => compute_direction scheme r s) setupOpt

/-- The configured strategy's convergence predicate for the new trial:
true exactly when the strategy dispatch in `search_status` would set
`isdone = 1` on this call (before the `STEPMAX` failure override). -/
def wouldConverge (cfg : Config) (s : SearchState) (x_ f_ : ℚ) : Bool :=
  let f := func_vals (s.searchHistory ++ [(x_, f_)]) true
  if cfg.linesearch = Strategy.Fixed then anyImproved f && lastTwoLt f
  else if cfg.linesearch = Strategy.Bracket ∨ s.iter = 1 ∨ s.restart = true then s.isbrak
  else anyImproved f

/-- A default-valued configuration with the `Fixed` strategy, used for
concrete evaluations. -/
def cfgFixed : Config :=
  { scheme := Scheme.SD
    linesearch := Strategy.Fixed
    stepmax := 10
    stepinit := 1/20
    stepfactor := 1/2
    stepthresh := none
    stepovershoot := 0 }

/-- A default-valued configuration with the `Bracket` strategy. -/
def cfgBrack : Config :=
  { cfgFixed with linesearch := Strategy.Bracket }

/-- A `Backtrack` configuration with `STEPMAX = 1`, used to exercise the
failure cap. -/
def cfgBackOne : Config :=
  { cfgFixed with scheme := Scheme.LBFGS, linesearch := Strategy.Backtrack, stepmax := 1 }

/-- A `Fixed` configuration with `STEPMAX = 2`. -/
def cfgFixedTwo : Config :=
  { cfgFixed with stepmax := 2 }

/-- A freshly initialized line-search state at iteration 2 with baseline
objective 10. -/
def sBase2 : SearchState :=
  { searchHistory := [(0, 10)]
    stepCount := 0
    isdone := 0
    isbest := false
    isbrak := false
    iter := 2
    restart := false }

/-- A line-search state at iteration 1 that has already recorded one
improving trial. -/
def sIterOne : SearchState :=
  { searchHistory := [(0, 10), (1, 5)]
    stepCount := 1
    isdone := 0
    isbest := true
    isbrak := false
    iter := 1
    restart := false }

/-- A bracketing state at iteration 2 whose bracket flag is already set. -/
def sBrakSet : SearchState :=
  { searchHistory := [(0, 10), (1, 5), (2, 8)]
    stepCount := 2
    isdone := 0
    isbest := true
    isbrak := true
    iter := 2
    restart := false }

/-! Helper lemmas about the sorted history view. -/

theorem sortedHistory_perm (hist : List (ℚ × ℚ)) : List.Perm (sortedHistory hist) hist :=
  List.perm_insertionSort absLe hist

theorem sortedHistory_pairwise (hist : List (ℚ × ℚ)) :
    (sortedHistory hist).Pairwise absLe :=
  List.sorted_insertionSort absLe hist

theorem filter_orderedInsert (k : ℚ) (a : ℚ × ℚ) (l : List (ℚ × ℚ)) :
    (List.orderedInsert absLe a l).filter (fun q => decide (|q.1| = k))
      = if |a.1| = k then a :: l.filter (fun q => decide (|q.1| = k))
        else l.filter (fun q => decide (|q.1| = k)) := by
  induction l with
  | nil =>
      simp [List.orderedInsert, List.filter]
      split <;> simp_all
  | cons b t ih =>
      by_cases hab : absLe a b
      · rw [List.orderedInsert_of_le _ _ hab]
        by_cases hak : |a.1| = k
        · simp [List.filter, hak]
        · simp [List.filter, hak]
      · have hba : |b.1| < |a.1| := lt_of_not_le hab
        simp only [List.orderedInsert, if_neg hab]
        by_cases hak : |a.1| = k
        · have hbk : ¬ (|b.1| = k) := by
            intro h
            exact absurd (hak ▸ h ▸ hba) (lt_irrefl _)
          simp [List.filter, hbk, ih, hak]
        · by_cases hbk : |b.1| = k
          · simp [List.filter, hbk, ih, hak]
          · simp [List.filter, hbk, ih, hak]

theorem sortedHistory_filter (hist : List (ℚ × ℚ)) (k : ℚ) :
    (sortedHistory hist).filter (fun q => decide (|q.1| = k))
      = hist.filter (fun q => decide (|q.1| = k)) := by
  induction hist with
  | nil => rfl
  | cons a t ih =>
      show (List.orderedInsert absLe a (sortedHistory t)).filter _ = _
      rw [filter_orderedInsert]
      by_cases hak : |a.1| = k
      · simp [List.filter, hak, ih]
      · simp [List.filter, hak, ih]

theorem orderedInsert_zero (f0 : ℚ) (l : List (ℚ × ℚ)) :
    List.orderedInsert absLe (0, f0) l = (0, f0) :: l := by
  cases l with
  | nil => rfl
  | cons b t =>
      have h : absLe (0, f0) b := by
        show |(0 : ℚ)| ≤ |b.1|
        simpa using abs_nonneg b.1
      exact List.orderedInsert_of_le _ _ h

theorem sortedHistory_zero_cons (f0 : ℚ) (l : List (ℚ × ℚ)) :
    sortedHistory ((0, f0) :: l) = (0, f0) :: sortedHistory l := by
  show List.orderedInsert absLe (0, f0) (sortedHistory l) = _
  exact orderedInsert_zero f0 (sortedHistory l)

/-! Helper lemmas about the numpy minimum and argmin models. -/

theorem foldl_min_le_init (l : List ℚ) (a : ℚ) : l.foldl min a ≤ a := by
  induction l generalizing a with
  | nil => exact le_refl a
  | cons b t ih =>
      exact le_trans (ih (min a b)) (min_le_left a b)

theorem foldl_min_le_mem (l : List ℚ) (a : ℚ) : ∀ x ∈ l, l.foldl min a ≤ x := by
  induction l generalizing a with
  | nil => intro x hx; cases hx
  | cons b t ih =>
      intro x hx
      rcases List.mem_cons.mp hx with h | h
      · subst h
        exact le_trans (foldl_min_le_init t (min a x)) (min_le_right a x)
      · exact ih (min a b) x h

theorem foldl_min_mem (l : List ℚ) (a : ℚ) : l.foldl min a = a ∨ l.foldl min a ∈ l := by
  induction l generalizing a with
  | nil => exact Or.inl rfl
  | cons b t ih =>
      rcases ih (min a b) with h | h
      · rcases min_choice a b with hm | hm
        · exact Or.inl (by rw [List.foldl_cons, h, hm])
        · exact Or.inr (by rw [List.foldl_cons, h, hm]; exact List.mem_cons_self b t)
      · exact Or.inr (List.mem_cons_of_mem b h)

theorem le_foldl_min (l : List ℚ) (a c : ℚ) (ha : c ≤ a) (hl : ∀ x ∈ l, c ≤ x) :
    c ≤ l.foldl min a := by
  induction l generalizing a with
  | nil => exact ha
  | cons b t ih =>
      exact ih (min a b) (le_min ha (hl b (List.mem_cons_self b t)))
        (fun x hx => hl x (List.mem_cons_of_mem b hx))

theorem npMin_mem (l : List ℚ) (h : l ≠ []) : npMin l ∈ l := by
  cases l with
  | nil => exact absurd rfl h
  | cons a t =>
      show t.foldl min a ∈ a :: t
      rcases foldl_min_mem t a with h' | h'
      · rw [h']; exact List.mem_cons_self a t
      · exact List.mem_cons_of_mem a h'

theorem npMin_le (l : List ℚ) : ∀ x ∈ l, npMin l ≤ x := by
  cases l with
  | nil => intro x hx; cases hx
  | cons a t =>
      intro x hx
      rcases List.mem_cons.mp hx with h | h
      · exact h ▸ foldl_min_le_init t a
      · exact foldl_min_le_mem t a x h

theorem npMin_cons_of_le (f0 : ℚ) (fs : List ℚ) (h : ∀ x ∈ fs, f0 ≤ x) :
    npMin (f0 :: fs) = f0 :=
  le_antisymm (foldl_min_le_init fs f0) (le_foldl_min fs f0 f0 (le_refl f0) h)

theorem npArgmin_lt_length (l : List ℚ) (h : l ≠ []) : npArgmin l < l.length :=
  List.indexOf_lt_length.mpr (npMin_mem l h)

theorem get_npArgmin (l : List ℚ) (h : npArgmin l < l.length) :
    l.get ⟨npArgmin l, h⟩ = npMin l :=
  List.indexOf_get h

theorem npArgmin_cons_of_le (f0 : ℚ) (fs : List ℚ) (h : ∀ x ∈ fs, f0 ≤ x) :
    npArgmin (f0 :: fs) = 0 := by
  unfold npArgmin
  rw [npMin_cons_of_le f0 fs h]
  exact List.indexOf_cons_self f0 fs

theorem modelUpdate_zero (m p : List ℚ) (h : m.length ≤ p.length) :
    modelUpdate m p 0 = m := by
  induction m generalizing p with
  | nil => rfl
  | cons mi mt ih =>
      cases p with
      | nil => simp at h
      | cons pi pt =>
          simp only [modelUpdate, List.zipWith_cons_cons, mul_zero, add_zero]
          have := ih pt (Nat.le_of_succ_le_succ h)
          simpa [modelUpdate] using this

/-! Helper lemmas about the status-update operation. -/

theorem searchStatusCore_stepCount (cfg : Config) (s : SearchState) (x_ f_ : ℚ) :
    (searchStatusCore cfg s x_ f_).stepCount = s.stepCount + 1 :=
  rfl

theorem searchStatusCore_isdone_cap (cfg : Config) (s : SearchState) (x_ f_ : ℚ)
    (h : cfg.stepmax ≤ s.stepCount + 1) :
    (searchStatusCore cfg s x_ f_).isdone = -1 := by
  simp only [searchStatusCore]
  rw [if_pos h]

theorem runStatus_isdone_cap (cfg : Config) :
    ∀ (trials : List (ℚ × ℚ)) (s : SearchState), trials ≠ [] →
      cfg.stepmax ≤ s.stepCount + trials.length →
      (runStatus cfg s trials).isdone = -1 := by
  intro trials
  induction trials with
  | nil => intro s h; exact absurd rfl h
  | cons t rest ih =>
      intro s _ hcap
      cases rest with
      | nil =>
          exact searchStatusCore_isdone_cap cfg s t.1 t.2 (by simpa using hcap)
      | cons u v =>
          have hne : u :: v ≠ ([] : List (ℚ × ℚ)) := by simp
          have hcap2 : cfg.stepmax ≤
              (searchStatusCore cfg s t.1 t.2).stepCount + (u :: v).length := by
            rw [searchStatusCore_stepCount]
            simp only [List.length_cons] at hcap ⊢
            omega
          exact ih (searchStatusCore cfg s t.1 t.2) hne hcap2

theorem lastBeatsAll_concat (l : List ℚ) (f : ℚ) :
    lastBeatsAll (l ++ [f]) = l.all (fun v => decide (f < v)) := by
  simp [lastBeatsAll, List.getLast?_concat, List.dropLast_concat]

theorem searchStatusCore_isbest (cfg : Config) (s : SearchState) (x_ f_ : ℚ) :
    (searchStatusCore cfg s x_ f_).isbest
      = (s.isbest || (s.searchHistory.map Prod.snd).all (fun v => decide (f_ < v))) := by
  simp only [searchStatusCore, func_vals, Bool.false_eq_true, if_false, List.map_append,
    List.map_cons, List.map_nil, lastBeatsAll_concat]
  cases h : (s.searchHistory.map Prod.snd).all (fun v => decide (f_ < v)) <;>
    cases hb : s.isbest <;> simp [h, hb]

/-! Helper lemmas about the direction dispatcher. -/

theorem foldl_sd_restart (reports : List Bool) :
    ∀ s : DirState, s.restart = false →
    (reports.foldl (fun st r => compute_direction Scheme.SD r st) s).restart = false := by
  induction reports with
  | nil => intro s h; exact h
  | cons r rest ih =>
      intro s h
      exact ih (compute_direction Scheme.SD r s) (by simp [compute_direction, h])

theorem runDirections_sd_restart (reports : List Bool) :
    (runDirections Scheme.SD reports).restart = false :=
  foldl_sd_restart reports setupOpt rfl

/-! The claims. -/

/-- C1: for every nonempty line-search history, `finalize_search` commits
as `f_new` the minimum objective value over the full history (baseline
included), the accepted step `alpha*` is a step length from the history
whose recorded objective is that minimum, and the committed model is
`m_new + alpha* * p_new`. -/
theorem finalize_commits_min_objective (hist : List (ℚ × ℚ)) (m p : List ℚ)
    (hne : hist ≠ []) :
    ((finalize_search hist m p).alphaStar, (finalize_search hist m p).fNew) ∈ hist ∧
    (∀ q ∈ hist, (finalize_search hist m p).fNew ≤ q.2) ∧
    (finalize_search hist m p).mNew
      = modelUpdate m p (finalize_search hist m p).alphaStar := by
  have hperm := sortedHistory_perm hist
  have hspne : sortedHistory hist ≠ [] := by
    intro h
    exact hne (List.Perm.eq_nil (h ▸ hperm).symm)
  have hfne : (sortedHistory hist).map Prod.snd ≠ [] := by
    simpa using hspne
  have hi : npArgmin ((sortedHistory hist).map Prod.snd)
      < ((sortedHistory hist).map Prod.snd).length :=
    npArgmin_lt_length _ hfne
  have hisp : npArgmin ((sortedHistory hist).map Prod.snd) < (sortedHistory hist).length := by
    simpa using hi
  have hix : npArgmin ((sortedHistory hist).map Prod.snd)
      < ((sortedHistory hist).map Prod.fst).length := by
    simpa using hisp
  have h1 : ((sortedHistory hist).map Prod.fst).getD
        (npArgmin ((sortedHistory hist).map Prod.snd)) 0
      = ((sortedHistory hist).get ⟨npArgmin ((sortedHistory hist).map Prod.snd), hisp⟩).1 := by
    rw [List.getD_eq_getElem _ _ hix, List.getElem_map, List.get_eq_getElem]
  have h2 : npMin ((sortedHistory hist).map Prod.snd)
      = ((sortedHistory hist).get ⟨npArgmin ((sortedHistory hist).map Prod.snd), hisp⟩).2 := by
    have h3 := get_npArgmin ((sortedHistory hist).map Prod.snd) hi
    rw [List.get_eq_getElem, List.getElem_map] at h3
    rw [← h3, List.get_eq_getElem]
  refine ⟨?_, ?_, rfl⟩
  · show (((sortedHistory hist).map Prod.fst).getD
        (npArgmin ((sortedHistory hist).map Prod.snd)) 0,
        npMin ((sortedHistory hist).map Prod.snd)) ∈ hist
    rw [h1, h2]
    exact hperm.subset (by rw [Prod.mk.eta]; exact List.get_mem _ _ _)
  · intro q hq
    show npMin ((sortedHistory hist).map Prod.snd) ≤ q.2
    exact npMin_le _ q.2 (List.mem_map_of_mem Prod.snd (hperm.mem_iff.mpr hq))

/-- C1 witness: the theorem applied to a concrete history, model and
direction. -/
theorem finalize_commits_min_objective_witness :
    ((finalize_search [(0, 10), (1, 5), (2, 8)] [1, 2] [3, 4]).alphaStar,
      (finalize_search [(0, 10), (1, 5), (2, 8)] [1, 2] [3, 4]).fNew) ∈
        [((0 : ℚ), (10 : ℚ)), (1, 5), (2, 8)] ∧
    (∀ q ∈ [((0 : ℚ), (10 : ℚ)), (1, 5), (2, 8)],
      (finalize_search [(0, 10), (1, 5), (2, 8)] [1, 2] [3, 4]).fNew ≤ q.2) ∧
    (finalize_search [(0, 10), (1, 5), (2, 8)] [1, 2] [3, 4]).mNew
      = modelUpdate [1, 2] [3, 4]
          (finalize_search [(0, 10), (1, 5), (2, 8)] [1, 2] [3, 4]).alphaStar :=
  finalize_commits_min_objective [(0, 10), (1, 5), (2, 8)] [1, 2] [3, 4] (by decide)

/-- C2: from a freshly initialized state (`step_count = 0`), a run of
exactly `STEPMAX` successful `search_status` calls ends with
`isdone = -1` (Failed), for every configured strategy and whatever trial
values are produced — in particular when no convergence predicate is ever
satisfied. -/
theorem stepmax_forces_failure (cfg : Config) (s : SearchState)
    (trials : List (ℚ × ℚ)) (h0 : s.stepCount = 0)
    (hlen : trials.length = cfg.stepmax) (hpos : 0 < cfg.stepmax) :
    (runStatus cfg s trials).isdone = -1 := by
  apply runStatus_isdone_cap
  · intro hnil
    rw [hnil] at hlen
    simp only [List.length_nil] at hlen
    omega
  · omega

/-- C2 witness: two worthless trials under a `STEPMAX = 2` configuration
end in failure. -/
theorem stepmax_forces_failure_witness :
    (runStatus cfgFixedTwo sBase2 [(1, 20), (2, 30)]).isdone = -1 :=
  stepmax_forces_failure cfgFixedTwo sBase2 [(1, 20), (2, 30)] rfl rfl (by decide)

/-- C3: a NaN trial objective (modelled as `none`) makes `search_status`
raise the fatal invalid-objective error before any mutation: the error
carries the line-search state exactly as it was, so the history and
`step_count` are unchanged (no partial append). -/
theorem nan_objective_leaves_state_unchanged (cfg : Config) (s : SearchState) (x_ : ℚ) :
    search_status cfg s x_ none = Except.error s :=
  rfl

/-- C9: when a `search_status` call both satisfies the configured
strategy's convergence predicate for the new trial and brings
`step_count` to at least `STEPMAX`, the failure check — evaluated after
the convergence checks — overwrites the result: the call ends with
`isdone = -1`, not `1`. -/
theorem stepmax_overrides_convergence (cfg : Config) (s : SearchState) (x_ f_ : ℚ)
    (hconv : wouldConverge cfg s x_ f_ = true)
    (hcap : cfg.stepmax ≤ s.stepCount + 1) :
    (searchStatusCore cfg s x_ f_).isdone = -1 :=
  searchStatusCore_isdone_cap cfg s x_ f_ hcap

/-- C9 witness: a `Backtrack` run with `STEPMAX = 1` whose first trial
already improves on the baseline still fails. -/
theorem stepmax_overrides_convergence_witness :
    wouldConverge cfgBackOne sBase2 1 5 = true ∧
    cfgBackOne.stepmax ≤ sBase2.stepCount + 1 ∧
    (searchStatusCore cfgBackOne sBase2 1 5).isdone = -1 :=
  ⟨by decide, by decide,
    stepmax_overrides_convergence cfgBackOne sBase2 1 5 (by decide) (by decide)⟩

/-- C4 counterexample: the claim fails when the configured strategy is
`Fixed` and `iteration = 1`.  The bracket condition holds for the new
trial and `isbrak` was clear, so the claim requires the call to set
`isbrak`; but the dispatch tries the configured `Fixed` branch first, so
`isbrak` stays clear (the call sets `isdone = 1` on the `Fixed`
criterion instead). -/
theorem fixed_overrides_forced_bracket_cex :
    cfgFixed.linesearch = Strategy.Fixed ∧
    sIterOne.iter = 1 ∧
    sIterOne.isbrak = false ∧
    anyImproved (func_vals (sIterOne.searchHistory ++ [(2, 8)]) true) = true ∧
    lastTwoLt (func_vals (sIterOne.searchHistory ++ [(2, 8)]) true) = true ∧
    (searchStatusCore cfgFixed sIterOne 2 8).isbrak = false ∧
    (searchStatusCore cfgFixed sIterOne 2 8).isdone = 1 := by
  decide

/-- C4 (amended): whenever the configured strategy is `Bracket`, or the
strategy is not `Fixed` and (iteration = 1 or the restart flag is set) —
a configured `Fixed` strategy takes precedence over the forced-bracket
branch — and the call does not reach `STEPMAX` (which would force
`isdone = -1`): if `isbrak` was already set when `search_status` is
called, the call sets `isdone = 1` regardless of the new trial's
objective; otherwise the call sets `isbrak` exactly when some
non-baseline entry of the `|step|`-sorted objective view is strictly
below its first entry and the last two sorted entries satisfy
`f[-2] < f[-1]`. -/
theorem bracket_branch_behavior (cfg : Config) (s : SearchState) (x_ f_ : ℚ)
    (hbr : cfg.linesearch = Strategy.Bracket ∨
      (cfg.linesearch ≠ Strategy.Fixed ∧ (s.iter = 1 ∨ s.restart = true)))
    (hcap : s.stepCount + 1 < cfg.stepmax) :
    (s.isbrak = true → (searchStatusCore cfg s x_ f_).isdone = 1) ∧
    (s.isbrak = false → (searchStatusCore cfg s x_ f_).isbrak
      = (anyImproved (func_vals (s.searchHistory ++ [(x_, f_)]) true)
          && lastTwoLt (func_vals (s.searchHistory ++ [(x_, f_)]) true))) := by
  have hnf : ¬ (cfg.linesearch = Strategy.Fixed) := by
    rcases hbr with h | ⟨h, _⟩
    · rw [h]; intro hc; cases hc
    · exact h
  have hguard : cfg.linesearch = Strategy.Bracket ∨ s.iter = 1 ∨ s.restart = true := by
    rcases hbr with h | ⟨_, h⟩
    · exact Or.inl h
    · exact Or.inr h
  have hnc : ¬ (cfg.stepmax ≤ s.stepCount + 1) := by omega
  constructor
  · intro hb
    simp only [searchStatusCore, if_neg hnf, if_pos hguard, hb, if_pos, if_neg hnc]
  · intro hb
    simp only [searchStatusCore, if_neg hnf, if_pos hguard, hb, Bool.false_eq_true,
      if_false, if_neg hnc]
    cases hcond : (anyImproved (func_vals (s.searchHistory ++ [(x_, f_)]) true)
        && lastTwoLt (func_vals (s.searchHistory ++ [(x_, f_)]) true)) <;>
      simp [hcond]

/-- C4 witness: a `Bracket` configuration whose bracket flag is already
set converges on the next call, and with the flag clear the bracket flag
tracks the bracket condition. -/
theorem bracket_branch_behavior_witness :
    (sBrakSet.isbrak = true → (searchStatusCore cfgBrack sBrakSet 3 20).isdone = 1) ∧
    (sBrakSet.isbrak = false → (searchStatusCore cfgBrack sBrakSet 3 20).isbrak
      = (anyImproved (func_vals (sBrakSet.searchHistory ++ [(3, 20)]) true)
          && lastTwoLt (func_vals (sBrakSet.searchHistory ++ [(3, 20)]) true))) :=
  bracket_branch_behavior cfgBrack sBrakSet 3 20 (Or.inl (by decide)) (by decide)

/-- C5 counterexample: with the `Fixed` strategy, baseline 10 and trials
with objectives 5 then 8, after the second call the most recently
appended objective (8) is not strictly below every previously recorded
value, yet `isbest` is still set — the flag is sticky within a line
search, so the claimed if-and-only-if recomputation is false. -/
theorem isbest_sticky_cex :
    (runStatus cfgFixed sBase2 [(1, 5), (2, 8)]).isbest = true ∧
    lastBeatsAll
      ((runStatus cfgFixed sBase2 [(1, 5), (2, 8)]).searchHistory.map Prod.snd) = false := by
  decide

/-- C5 (amended): after every successful `search_status` call, `isbest`
equals the OR of its previous value with "the newly appended objective is
strictly below every previously recorded objective of this line search":
the flag is set by a strictly-best trial and never cleared before the
next `initialize_search`. -/
theorem isbest_is_sticky_best_so_far (cfg : Config) (s : SearchState) (x_ f_ : ℚ) :
    (searchStatusCore cfg s x_ f_).isbest
      = (s.isbest || (s.searchHistory.map Prod.snd).all (fun v => decide (f_ < v))) :=
  searchStatusCore_isbest cfg s x_ f_

/-- C6: with overshoot scaling disabled and no maximum-step safeguard
configured (their defaults), `initialize_search` chooses the initial step
length as the claim states, for every combination of iteration, restart
flag and configured strategy: `p_ratio * STEPINIT` when `iteration = 1`
or the restart flag is set; `1` when the strategy is `Backtrack`; and the
secant-style `step_init` guess `2 * (s_new/s_old) * previous alpha`
otherwise. -/
theorem initial_step_selection (cfg : Config) (iter : Nat) (restart : Bool)
    (m p : List ℚ) (f alphaOld sNew sOld : ℚ)
    (hov : cfg.stepovershoot = 0) (hth : cfg.stepthresh = none) :
    ((iter = 1 ∨ restart = true) →
      (initialize_search cfg iter restart m p f alphaOld sNew sOld).alpha
        = (maxAbs m / maxAbs p) * cfg.stepinit) ∧
    (iter ≠ 1 → restart = false → cfg.linesearch = Strategy.Backtrack →
      (initialize_search cfg iter restart m p f alphaOld sNew sOld).alpha = 1) ∧
    (iter ≠ 1 → restart = false → cfg.linesearch ≠ Strategy.Backtrack →
      (initialize_search cfg iter restart m p f alphaOld sNew sOld).alpha
        = 2 * (sNew / sOld) * alphaOld) := by
  refine ⟨?_, ?_, ?_⟩
  · rintro (h1 | hr)
    · simp [initialize_search, hov, hth, h1]
    · simp only [initialize_search, hov, hth, hr]
      by_cases h1 : iter = 1 <;> simp [h1]
  · intro h1 hr hback
    simp [initialize_search, hov, hth, h1, hr, hback]
  · intro h1 hr hback
    simp [initialize_search, hov, hth, h1, hr, hback, step_init]

/-- C6 witness: the theorem applied to a default-valued configuration at
iteration 2 with no restart. -/
theorem initial_step_selection_witness :
    ((2 = 1 ∨ false = true) →
      (initialize_search cfgFixed 2 false [2] [1] 10 3 1 2).alpha
        = (maxAbs [2] / maxAbs [1]) * cfgFixed.stepinit) ∧
    (2 ≠ 1 → false = false → cfgFixed.linesearch = Strategy.Backtrack →
      (initialize_search cfgFixed 2 false [2] [1] 10 3 1 2).alpha = 1) ∧
    (2 ≠ 1 → false = false → cfgFixed.linesearch ≠ Strategy.Backtrack →
      (initialize_search cfgFixed 2 false [2] [1] 10 3 1 2).alpha
        = 2 * ((1 : ℚ) / 2) * 3) :=
  initial_step_selection cfgFixed 2 false [2] [1] 10 3 1 2 rfl rfl

/-- C7: `restart_count` starts at 0 after `setup`, and along any run of
`compute_direction` calls it is non-decreasing (never reset) and
increases by exactly 1 on a call precisely when that call's Direction
Algorithm reports a restart — under `SD` no algorithm is consulted and
the count never moves. -/
theorem restart_count_invariant :
    setupOpt.restartCount = 0 ∧
    ∀ (scheme : Scheme) (reports : List Bool) (r : Bool),
      (runDirections scheme reports).restartCount ≤
        (runDirections scheme (reports ++ [r])).restartCount ∧
      (runDirections scheme (reports ++ [r])).restartCount
        = (runDirections scheme reports).restartCount
          + (if scheme ≠ Scheme.SD ∧ r = true then 1 else 0) := by
  refine ⟨rfl, ?_⟩
  intro scheme reports r
  have hstep : runDirections scheme (reports ++ [r])
      = compute_direction scheme r (runDirections scheme reports) := by
    simp [runDirections, List.foldl_append]
  rw [hstep]
  cases scheme with
  | SD =>
      have hres := runDirections_sd_restart reports
      constructor
      · simp [compute_direction, hres]
      · simp [compute_direction, hres]
  | NLCG =>
      cases r <;> simp [compute_direction]
  | LBFGS =>
      cases r <;> simp [compute_direction]

/-- C8: for every history, the sorted accessor views (`sort = True`)
return the (step, objective) pairs ordered by `|step|` ascending with
ties kept in insertion (chronological) order, and the unsorted views
(`sort = False`) return them in exactly the chronological order of the
trials. -/
theorem history_views_sorted_and_chronological (hist : List (ℚ × ℚ)) :
    step_lens hist false = hist.map Prod.fst ∧
    func_vals hist false = hist.map Prod.snd ∧
    step_lens hist true = (sortedHistory hist).map Prod.fst ∧
    func_vals hist true = (sortedHistory hist).map Prod.snd ∧
    List.Perm (sortedHistory hist) hist ∧
    (sortedHistory hist).Pairwise (fun a b => |a.1| ≤ |b.1|) ∧
    ∀ k : ℚ, (sortedHistory hist).filter (fun q => decide (|q.1| = k))
      = hist.filter (fun q => decide (|q.1| = k)) :=
  ⟨rfl, rfl, rfl, rfl, sortedHistory_perm hist, sortedHistory_pairwise hist,
    fun k => sortedHistory_filter hist k⟩

/-- C10: when no trial objective is strictly below the baseline value
recorded at `initialize_search`, `finalize_search` selects the baseline
entry: `alpha* = 0`, the committed objective equals the previous
baseline, and with `0 * p_new` contributing nothing the committed model
equals the previous model. -/
theorem finalize_no_improvement_keeps_baseline (trials : List (ℚ × ℚ))
    (m p : List ℚ) (f0 : ℚ) (hlen : m.length = p.length)
    (hni : ∀ q ∈ trials, ¬ (q.2 < f0)) :
    (finalize_search ((0, f0) :: trials) m p).alphaStar = 0 ∧
    (finalize_search ((0, f0) :: trials) m p).fNew = f0 ∧
    (finalize_search ((0, f0) :: trials) m p).mNew = m := by
  have hs : sortedHistory ((0, f0) :: trials) = (0, f0) :: sortedHistory trials :=
    sortedHistory_zero_cons f0 trials
  have hall : ∀ v ∈ (sortedHistory trials).map Prod.snd, f0 ≤ v := by
    intro v hv
    rcases List.mem_map.mp hv with ⟨q, hq, hqv⟩
    have hqt : q ∈ trials := (sortedHistory_perm trials).subset hq
    exact hqv ▸ le_of_not_lt (hni q hqt)
  have hfv : func_vals ((0, f0) :: trials) true
      = f0 :: (sortedHistory trials).map Prod.snd := by
    simp [func_vals, hs]
  have hsl : step_lens ((0, f0) :: trials) true
      = 0 :: (sortedHistory trials).map Prod.fst := by
    simp [step_lens, hs]
  have hargmin : npArgmin (func_vals ((0, f0) :: trials) true) = 0 := by
    rw [hfv]
    exact npArgmin_cons_of_le f0 _ hall
  have halpha : (finalize_search ((0, f0) :: trials) m p).alphaStar = 0 := by
    show (step_lens ((0, f0) :: trials) true).getD
        (npArgmin (func_vals ((0, f0) :: trials) true)) 0 = 0
    rw [hargmin, hsl]
    rfl
  refine ⟨halpha, ?_, ?_⟩
  · show npMin (func_vals ((0, f0) :: trials) true) = f0
    rw [hfv]
    exact npMin_cons_of_le f0 _ hall
  · show modelUpdate m p ((finalize_search ((0, f0) :: trials) m p).alphaStar) = m
    rw [halpha]
    exact modelUpdate_zero m p (le_of_eq hlen)

/-- C10 witness: a history whose two trials are no better than the
baseline commits step 0, the baseline objective and the unchanged model. -/
theorem finalize_no_improvement_keeps_baseline_witness :
    (finalize_search [(0, 10), (1, 12), (2, 10)] [1, 2] [3, 4]).alphaStar = 0 ∧
    (finalize_search [(0, 10), (1, 12), (2, 10)] [1, 2] [3, 4]).fNew = 10 ∧
    (finalize_search [(0, 10), (1, 12), (2, 10)] [1, 2] [3, 4]).mNew = [1, 2] :=
  finalize_no_improvement_keeps_baseline [(1, 12), (2, 10)] [1, 2] [3, 4] 10
    rfl (by decide)
